import Mathlib

/-!
Verification of the shell repository's handler selector, workspace manager and
window tracker against its natural-language specification.

The development shallowly embeds the relevant source functions:

* `ShellManager::updateShell`, `ShellManager::registerHandler`,
  `ShellManager::deregisterHandler`, `ShellManager::shell`,
  `ShellManager::shellDirectory` (shellmanager.cpp);
* `DesktopShell::removeWorkspace`, `DesktopShell::appendWindow`
  (desktopshell.cpp);
* the window chrome tracker of `WaylandChrome.qml`
  (`onWindowTypeChanged`, `onParentWlSurfaceChanged`, `onSurfaceDestroyed`,
  `__private.giveFocusToParent`, `onMappedChanged`).

Qt machine integers (`int`) are modelled as `Int`; signal emissions are
modelled as explicit event lists; `qFatal` is modelled as a `fatal` result
constructor; the out-of-range precondition violation of `QList::takeAt` is
modelled as a `fault` result constructor.
-/

/-- One registered shell-handler candidate (a pluggable shell skin).  The
fields mirror the dynamic properties read by `ShellManager::updateShell` and
`ShellManager::shell` / `shellDirectory`: the registration key
(`metadata.internalName()`), the `willing`, `priority` and `loaded`
properties, the `shell` property (the shell name carried by the
`shellChanged` signal) and the `path` property set by
`ShellManager::loadHandlers`. -/
structure Handler where
  name : String
  willing : Bool
  priority : Int
  loaded : Bool
  shell : String
  path : String
deriving DecidableEq, Repr

/-- The comparison lambda inside `ShellManager::updateShell`:
`willing(left) && !willing(right) ? true : !willing(left) && willing(right)
? false : priority(left) < priority(right)`. -/
def compareHandlers (l r : Handler) : Bool :=
  if l.willing && !r.willing then true
  else if !l.willing && r.willing then false
  else decide (l.priority < r.priority)

/-- The loop of `std::min_element(objects.begin(), objects.end(), compare)`:
the running best is replaced only when a later element compares strictly
smaller, so the first minimal element wins ties. -/
def minElement (best : Handler) : List Handler → Handler
  | [] => best
  | x :: xs => minElement (if compareHandlers x best then x else best) xs

/-- Willingness rank used to phrase the selection ordering: willing
candidates rank 0, unwilling candidates rank 1. -/
def wRank (h : Handler) : Nat := if h.willing then 0 else 1

/-- Strict lexicographic order on (willingness rank, priority) pairs. -/
def lexLt (p q : Nat × Int) : Prop :=
  p.1 < q.1 ∨ (p.1 = q.1 ∧ p.2 < q.2)

instance (p q : Nat × Int) : Decidable (lexLt p q) := by
  unfold lexLt
  infer_instance

/-- The preference rank of a candidate: willingness first, then priority. -/
def rank (h : Handler) : Nat × Int := (wRank h, h.priority)

/-- Candidate `a` is strictly preferred to candidate `b`: `a` is willing and
`b` is not, or they are equally willing and `a` has the lower priority
value. -/
def rankLt (a b : Handler) : Prop := lexLt (rank a) (rank b)

instance (a b : Handler) : Decidable (rankLt a b) := by
  unfold rankLt
  infer_instance

/-- Events emitted by the shell manager. -/
inductive SMEvent where
  | shellChanged (shellName : String)
deriving DecidableEq, Repr

/-- State of `ShellManager`: the registered candidate mapping and the
non-owning current-handler reference (`m_currentHandler`, represented by the
unique registration key of the handler it points to, `none` for `nullptr`).

The container `m_handlers` is declared in a header that is not among the
sources.  Modelled from the spec: its iteration order (the order of
`m_handlers.values()`) is first-registered order, per the specification's
tie-breaking rule for the selector, so the mapping is an insertion-ordered
association list with unique keys. -/
structure ShellManagerState where
  handlers : List Handler
  currentHandler : Option String
deriving DecidableEq, Repr

/-- Result of a shell-manager operation: either a fatal process termination
(`qFatal`) with its diagnostic, or a new state plus the emitted events. -/
inductive UpdateResult where
  | fatal (msg : String)
  | ok (st : ShellManagerState) (events : List SMEvent)
deriving DecidableEq, Repr

/-- The effect of `handler->setProperty("loaded", v)` on the candidate
mapping holding the handler registered under key `n`. -/
def setLoaded (hs : List Handler) (n : String) (v : Bool) : List Handler :=
  hs.map (fun g => if g.name = n then { g with loaded := v } else g)

/-- The step `if (m_currentHandler) m_currentHandler->setProperty("loaded",
false)` of `ShellManager::updateShell`: unloads the prior current handler
when there is one. -/
def unloadCurrent (hsAll : List Handler) (cur : Option String) : List Handler :=
  match cur with
  | some c => setLoaded hsAll c false
  | none => hsAll

/-- `ShellManager::updateShell`: fails fatally when no handlers are
registered; otherwise selects the minimum of `m_handlers.values()` under the
willingness/priority comparison, returns unchanged with no event when the
selection already is the current handler, and otherwise unloads the prior
handler, loads the selected one and emits one `shellChanged` event carrying
the new handler's `shell` property.  The pointer comparison
`m_currentHandler == handler` is represented by comparison of the unique
registration keys. -/
def updateShell (st : ShellManagerState) : UpdateResult :=
  match st.handlers with
  | [] => UpdateResult.fatal "No shell handlers installed, cannot continue!"
  | h :: hs =>
    let handler := minElement h hs
    if st.currentHandler = some handler.name then
      UpdateResult.ok st []
    else
      UpdateResult.ok
        { handlers :=
            setLoaded (unloadCurrent st.handlers st.currentHandler)
              handler.name true,
          currentHandler := some handler.name }
        [SMEvent.shellChanged handler.shell]

/-- `ShellManager::registerHandler`: inserts the handler into the candidate
mapping (callers have already checked that the key is fresh); the signal
connections carry no state.  Insertion appends in registration order. -/
def registerHandler (st : ShellManagerState) (h : Handler) : ShellManagerState :=
  { st with handlers := st.handlers ++ [h] }

/-- Removal of the (first) entry registered under key `n` from the candidate
mapping, as performed by `m_handlers.remove(m_handlers.key(handler))`. -/
def removeFirstByName (hs : List Handler) (n : String) : List Handler :=
  match hs with
  | [] => []
  | h :: t => if h.name = n then t else h :: removeFirstByName t n

/-- `ShellManager::deregisterHandler`: removes the handler from the mapping
and, only when it was the current handler, clears the current-handler
reference and re-runs the selector.  The `disconnect` call carries no
state. -/
def deregisterHandler (st : ShellManagerState) (n : String) : UpdateResult :=
  let st1 : ShellManagerState :=
    { st with handlers := removeFirstByName st.handlers n }
  if st.currentHandler = some n then
    updateShell { st1 with currentHandler := none }
  else
    UpdateResult.ok st1 []

/-- The string value of `QDir()`: a default-constructed `QDir` refers to the
application's current directory, whose relative path is ".". -/
def qdirDefaultPath : String := "."

/-- `ShellManager::shell`: the current handler's `shell` property, or the
null `QString` when no current handler is set.  The inner `getD`
branch (a dangling current-handler key) is unreachable in well-formed
states, where the current-handler reference always points into the
mapping. -/
def ShellManagerState.shell (st : ShellManagerState) : String :=
  match st.currentHandler with
  | some n => ((st.handlers.find? (fun g => g.name == n)).map Handler.shell).getD ""
  | none => ""

/-- `ShellManager::shellDirectory`: the current handler's `path` property,
or a default-constructed `QDir` when no current handler is set. -/
def ShellManagerState.shellDirectory (st : ShellManagerState) : String :=
  match st.currentHandler with
  | some n => ((st.handlers.find? (fun g => g.name == n)).map Handler.path).getD qdirDefaultPath
  | none => qdirDefaultPath

/-- One virtual workspace, identified here by its creation identity (the
`Workspace` object's content is owned elsewhere; observers only need its
identity in this development). -/
structure Workspace where
  wid : Nat
deriving DecidableEq, Repr

/-- State of `DesktopShell`: the ordered workspace collection
(`m_workspaces`) and the tracked window identities (`m_windows`, with
`Window*` pointers represented by their surface-derived identities). -/
structure DesktopShellState where
  workspaces : List Workspace
  windows : List Nat
deriving DecidableEq, Repr

/-- Primitive actions performed or signals emitted by `DesktopShell`, in
program order. -/
inductive DSAction where
  | workspaceRemoved (num : Int)
  | deleteWorkspace (w : Workspace)
  | workspaceAdded (idx : Int)
  | workspacesChanged
  | windowsChanged
deriving DecidableEq, Repr

/-- Result of `DesktopShell::removeWorkspace`: a new state with the ordered
trace of emissions and releases, or `fault` when `QList::takeAt` is called
with an index outside `[0, size)` — the source performs no bounds check, so
that call violates the container precondition (a Qt assertion failure in
debug builds, undefined behavior in release builds). -/
inductive RemoveResult where
  | ok (st : DesktopShellState) (trace : List DSAction)
  | fault
deriving DecidableEq, Repr

/-- `DesktopShell::removeWorkspace(num)`: `takeAt(num)` removes and returns
the workspace at `num`; the returned pointer is non-null for every valid
index (workspaces are heap-allocated before insertion), so the body then
emits `workspaceRemoved(num)` and only afterwards runs `delete
workspace`. -/
def removeWorkspace (st : DesktopShellState) (num : Int) : RemoveResult :=
  if h : 0 ≤ num ∧ num < (st.workspaces.length : Int) then
    have hn : num.toNat < st.workspaces.length := by omega
    RemoveResult.ok
      { st with workspaces := st.workspaces.eraseIdx num.toNat }
      [DSAction.workspaceRemoved num,
       DSAction.deleteWorkspace (st.workspaces.get ⟨num.toNat, hn⟩)]
  else
    RemoveResult.fault

/-- `DesktopShell::appendWindow`: appends the window to `m_windows` and
emits `windowsChanged` (the window-added notification); the `connect` call
carries no state. -/
def appendWindow (st : DesktopShellState) (w : Nat) : DesktopShellState × List DSAction :=
  ({ st with windows := st.windows ++ [w] }, [DSAction.windowsChanged])

/-- The client-side view of one shell surface: its identity and its `mapped`
property (a Qt property, whose change signal fires only when the stored
value actually changes). -/
structure TrackedSurface where
  sid : Nat
  mapped : Bool
deriving DecidableEq, Repr

/-- Modelled from the spec: the protocol glue that reacts to a surface's
mapped event by creating the local `Window` and calling
`DesktopShell::appendWindow` is not among the sources (only `appendWindow`
itself and the QML `Connections.onMappedChanged` gate are).  Per the
specification, the mapped event is "only valid once per surface (idempotent
if replayed — a duplicate mapped event is ignored, not an error)", matching
the in-source gate: `onMappedChanged` fires only when the `mapped` property
transitions, so a redundant delivery changes nothing and emits nothing. -/
def deliverMapped (st : DesktopShellState) (surf : TrackedSurface) :
    DesktopShellState × TrackedSurface × List DSAction :=
  if surf.mapped then
    (st, surf, [])
  else
    let r := appendWindow st surf.sid
    (r.1, { surf with mapped := true }, r.2)

/-- Surface identities used as weak lookup keys. -/
abbrev SurfaceId := Nat

/-- The latest-value fields kept by `shellSurfaceItem` in WaylandChrome.qml:
`property int windowType: Qt.Window` and
`property WaylandSurface parentWlSurface: null`. -/
structure TrackerState where
  windowType : Int
  parentWlSurface : Option SurfaceId
deriving DecidableEq, Repr

/-- The numeric value of the `Qt.Window` window type. -/
def qtWindow : Int := 1

/-- The numeric value of the `Qt.SubWindow` window type. -/
def qtSubWindow : Int := 18

/-- The numeric value of the `Qt.Popup` window type. -/
def qtPopup : Int := 9

/-- The initial tracker values declared in WaylandChrome.qml. -/
def initialTracker : TrackerState :=
  { windowType := qtWindow, parentWlSurface := none }

/-- Shell-surface change events handled by the `Connections` element of
WaylandChrome.qml after mapping. -/
inductive SSEvent where
  | windowTypeChanged (t : Int)
  | parentWlSurfaceChanged (p : Option SurfaceId)
deriving DecidableEq, Repr

/-- The `onWindowTypeChanged` and `onParentWlSurfaceChanged` handlers: each
saves the latest value of its own property into the tracker, independently
of the other. -/
def applyEvent (st : TrackerState) : SSEvent → TrackerState
  | SSEvent.windowTypeChanged t => { st with windowType := t }
  | SSEvent.parentWlSurfaceChanged p => { st with parentWlSurface := p }

/-- Delivery of a sequence of change events, in order. -/
def applyEvents (st : TrackerState) (evs : List SSEvent) : TrackerState :=
  evs.foldl applyEvent st

/-- The value carried by the last window-type-changed event of `evs`, or the
default `d` when there is none. -/
def lastTypeD (d : Int) : List SSEvent → Int
  | [] => d
  | SSEvent.windowTypeChanged t :: rest => lastTypeD t rest
  | SSEvent.parentWlSurfaceChanged _ :: rest => lastTypeD d rest

/-- The value carried by the last parent-surface-changed event of `evs`, or
the default `d` when there is none. -/
def lastParentD (d : Option SurfaceId) : List SSEvent → Option SurfaceId
  | [] => d
  | SSEvent.windowTypeChanged _ :: rest => lastParentD d rest
  | SSEvent.parentWlSurfaceChanged p :: rest => lastParentD p rest

/-- The lookup `output.viewsBySurface[key]`, with `viewsBySurface`
represented as an association list from surface identity to the chrome item
identity.  Indexing with a null key yields `undefined`, hence `none`. -/
def lookupView (views : List (SurfaceId × Nat)) : Option SurfaceId → Option Nat
  | none => none
  | some s => (views.find? (fun e => e.1 == s)).map (fun e => e.2)

/-- `__private.giveFocusToParent` of WaylandChrome.qml: looks the last-known
parent surface up in `output.viewsBySurface` and calls `takeFocus()` on the
resulting item when the lookup succeeds; a failed lookup is a silent
no-op. -/
def giveFocusToParent (views : List (SurfaceId × Nat)) (p : Option SurfaceId) : List Nat :=
  match lookupView views p with
  | some v => [v]
  | none => []

/-- The destroy animation chosen by `onSurfaceDestroyed`. -/
inductive DestroyAnim where
  | topLevel
  | transient
  | popup
  | immediate
deriving DecidableEq, Repr

/-- The observable outcome of handling `onSurfaceDestroyed`. -/
structure DestroyResult where
  bufferLocked : Bool
  anim : DestroyAnim
  focusTargets : List Nat
  chromeDestroyed : Bool
deriving DecidableEq, Repr

/-- `shellSurfaceItem.onSurfaceDestroyed` of WaylandChrome.qml: locks the
buffer, switches on the last-known `windowType` to choose the destroy
animation (`Qt.Window`, `Qt.SubWindow`, `Qt.Popup`, or the immediate default
branch), and hands focus back to the last-known parent.  Every destroy
animation ends in a `ScriptAction` running `__private.giveFocusToParent()`
followed by `chrome.destroy()`, and the default branch runs the same two
calls directly, so the handoff and destruction are unconditional; animation
timing is collapsed. -/
def onSurfaceDestroyed (st : TrackerState) (views : List (SurfaceId × Nat)) : DestroyResult :=
  { bufferLocked := true,
    anim :=
      if st.windowType = qtWindow then DestroyAnim.topLevel
      else if st.windowType = qtSubWindow then DestroyAnim.transient
      else if st.windowType = qtPopup then DestroyAnim.popup
      else DestroyAnim.immediate,
    focusTargets := giveFocusToParent views st.parentWlSurface,
    chromeDestroyed := true }

/-- Concrete candidate from the specification's example: name `a`,
willing=false, priority=1. -/
def hA : Handler :=
  { name := "a", willing := false, priority := 1, loaded := false,
    shell := "a", path := "/shells/a/contents/" }

/-- Concrete candidate from the specification's example: name `b`,
willing=true, priority=5. -/
def hB : Handler :=
  { name := "b", willing := true, priority := 5, loaded := false,
    shell := "b", path := "/shells/b/contents/" }

/-- Concrete shell-manager state with the two example candidates registered
and no current handler. -/
def stAB : ShellManagerState :=
  { handlers := [hA, hB], currentHandler := none }

/-- Concrete shell-manager state with no candidates registered. -/
def stEmptySM : ShellManagerState :=
  { handlers := [], currentHandler := none }

/-- Concrete desktop-shell state with two workspaces. -/
def dsTwo : DesktopShellState :=
  { workspaces := [{ wid := 10 }, { wid := 11 }], windows := [] }

/-- Concrete desktop-shell state with no workspaces. -/
def dsEmpty : DesktopShellState :=
  { workspaces := [], windows := [] }

/-- Concrete not-yet-mapped tracked surface. -/
def surfEx : TrackedSurface := { sid := 7, mapped := false }

/-- Concrete tracker state whose last-known parent surface is gone from the
views map. -/
def trackerOrphan : TrackerState := { windowType := 5, parentWlSurface := some 3 }

/-! Ordering lemmas for the selection relation. -/

theorem lexLt_irrefl (p : Nat × Int) : ¬ lexLt p p := by
  unfold lexLt
  omega

theorem lexLt_trans {p q r : Nat × Int} (h1 : lexLt p q) (h2 : lexLt q r) : lexLt p r := by
  unfold lexLt at *
  omega

theorem lexLt_of_lexLt_of_not {p q r : Nat × Int} (h1 : lexLt p q) (h2 : ¬ lexLt r q) :
    lexLt p r := by
  unfold lexLt at *
  omega

theorem not_lexLt_of_not_of_not {p q r : Nat × Int} (h1 : ¬ lexLt q p) (h2 : ¬ lexLt r q) :
    ¬ lexLt r p := by
  unfold lexLt at *
  omega

theorem rankLt_irrefl (a : Handler) : ¬ rankLt a a := lexLt_irrefl (rank a)

theorem rankLt_trans {a b c : Handler} (h1 : rankLt a b) (h2 : rankLt b c) : rankLt a c :=
  lexLt_trans h1 h2

theorem rankLt_of_rankLt_of_not {a b c : Handler} (h1 : rankLt a b) (h2 : ¬ rankLt c b) :
    rankLt a c :=
  lexLt_of_lexLt_of_not h1 h2

theorem not_rankLt_of_not_of_not {a b c : Handler} (h1 : ¬ rankLt b a) (h2 : ¬ rankLt c b) :
    ¬ rankLt c a :=
  not_lexLt_of_not_of_not h1 h2

/-- The source comparator decides exactly the strict preference relation. -/
theorem compareHandlers_eq_true_iff (a b : Handler) :
    compareHandlers a b = true ↔ rankLt a b := by
  cases ha : a.willing <;> cases hb : b.willing <;>
    simp [compareHandlers, rankLt, lexLt, rank, wRank, ha, hb]

theorem rankLt_of_compare {a b : Handler} (h : compareHandlers a b = true) : rankLt a b :=
  (compareHandlers_eq_true_iff a b).mp h

theorem not_rankLt_of_compare {a b : Handler} (h : compareHandlers a b = false) :
    ¬ rankLt a b := by
  intro hr
  rw [← compareHandlers_eq_true_iff] at hr
  rw [h] at hr
  exact Bool.false_ne_true hr


/-- The selected candidate is one of the candidates. -/
theorem minElement_mem (best : Handler) (l : List Handler) :
    minElement best l ∈ best :: l := by
  induction l generalizing best with
  | nil => simp [minElement]
  | cons x t ih =>
    cases hc : compareHandlers x best with
    | true =>
      simp only [minElement, hc, if_true]
      exact List.mem_cons_of_mem _ (ih x)
    | false =>
      simp only [minElement, hc, Bool.false_eq_true, if_false]
      rcases List.mem_cons.mp (ih best) with h | h
      · rw [h]
        exact List.mem_cons_self _ _
      · exact List.mem_cons_of_mem _ (List.mem_cons_of_mem _ h)

/-- No candidate is strictly preferred to the selected candidate. -/
theorem minElement_not_lt (best : Handler) (l : List Handler) :
    ∀ c ∈ best :: l, ¬ rankLt c (minElement best l) := by
  induction l generalizing best with
  | nil =>
    intro c hc
    rw [List.mem_singleton.mp hc]
    simp only [minElement]
    exact rankLt_irrefl _
  | cons x t ih =>
    intro c hc
    cases hcb : compareHandlers x best with
    | true =>
      have hxb : rankLt x best := rankLt_of_compare hcb
      simp only [minElement, hcb, if_true]
      have ihx := ih x
      rcases List.mem_cons.mp hc with h | h
      · subst h
        intro hlt
        exact ihx x (List.mem_cons_self _ _) (rankLt_trans hxb hlt)
      · exact ihx c h
    | false =>
      have hxb : ¬ rankLt x best := not_rankLt_of_compare hcb
      simp only [minElement, hcb, Bool.false_eq_true, if_false]
      have ihb := ih best
      rcases List.mem_cons.mp hc with h | h
      · rw [h]
        exact ihb best (List.mem_cons_self _ _)
      · rcases List.mem_cons.mp h with h2 | h2
        · rw [h2]
          exact not_rankLt_of_not_of_not (ihb best (List.mem_cons_self _ _)) hxb
        · exact ihb c (List.mem_cons_of_mem _ h2)

/-- The selected candidate occurs at a position preceded only by strictly
less preferred candidates: selection is stable, breaking ties by list
(registration) order. -/
theorem minElement_first (best : Handler) (l : List Handler) :
    ∃ l1 l2, best :: l = l1 ++ minElement best l :: l2 ∧
      ∀ c ∈ l1, rankLt (minElement best l) c := by
  induction l generalizing best with
  | nil =>
    refine ⟨[], [], by simp [minElement], ?_⟩
    intro c hc
    exact absurd hc (List.not_mem_nil c)
  | cons x t ih =>
    cases hcb : compareHandlers x best with
    | true =>
      have hxb : rankLt x best := rankLt_of_compare hcb
      simp only [minElement, hcb, if_true]
      obtain ⟨l1, l2, hsplit, hall⟩ := ih x
      cases l1 with
      | nil =>
        simp only [List.nil_append] at hsplit
        have hx : x = minElement x t := (List.cons_eq_cons.mp hsplit).1
        refine ⟨[best], l2, ?_, ?_⟩
        · simp only [List.singleton_append]
          rw [← hsplit]
        · intro c hc
          rw [List.mem_singleton.mp hc, ← hx]
          exact hxb
      | cons b l1t =>
        have hb : b = x := ((List.cons_eq_cons.mp hsplit).1).symm
        have ht : t = l1t ++ minElement x t :: l2 := (List.cons_eq_cons.mp hsplit).2
        have hrx : rankLt (minElement x t) x := by
          have h0 := hall b (List.mem_cons_self _ _)
          rwa [hb] at h0
        refine ⟨best :: x :: l1t, l2, ?_, ?_⟩
        · conv_lhs => rw [ht]
          simp
        · intro c hc
          rcases List.mem_cons.mp hc with h | h
          · subst h
            exact rankLt_trans hrx hxb
          · rcases List.mem_cons.mp h with h2 | h2
            · subst h2
              exact hrx
            · exact hall c (List.mem_cons_of_mem _ h2)
    | false =>
      have hxb : ¬ rankLt x best := not_rankLt_of_compare hcb
      simp only [minElement, hcb, Bool.false_eq_true, if_false]
      obtain ⟨l1, l2, hsplit, hall⟩ := ih best
      cases l1 with
      | nil =>
        simp only [List.nil_append] at hsplit
        have hbest : best = minElement best t := (List.cons_eq_cons.mp hsplit).1
        refine ⟨[], x :: t, ?_, ?_⟩
        · rw [← hbest]
          simp
        · intro c hc
          exact absurd hc (List.not_mem_nil c)
      | cons b l1t =>
        have hb : b = best := ((List.cons_eq_cons.mp hsplit).1).symm
        have ht : t = l1t ++ minElement best t :: l2 := (List.cons_eq_cons.mp hsplit).2
        have hrb : rankLt (minElement best t) best := by
          have h0 := hall b (List.mem_cons_self _ _)
          rwa [hb] at h0
        refine ⟨best :: x :: l1t, l2, ?_, ?_⟩
        · conv_lhs => rw [ht]
          simp
        · intro c hc
          rcases List.mem_cons.mp hc with h | h
          · subst h
            exact hrb
          · rcases List.mem_cons.mp h with h2 | h2
            · subst h2
              exact rankLt_of_rankLt_of_not hrb hxb
            · exact hall c (List.mem_cons_of_mem _ h2)

/-- C1: For every non-empty set of registered shell-handler candidates, the
re-evaluation `ShellManager::updateShell` picks the candidate preferred by
the ordering: any willing candidate over any unwilling one regardless of
priority, then the lower priority value among equal willingness, remaining
ties broken by first-registered order (stable) — and installs it as the
current handler. -/
theorem updateShell_selects_preferred (st : ShellManagerState)
    (h : Handler) (hs : List Handler) (hst : st.handlers = h :: hs) :
    minElement h hs ∈ st.handlers
    ∧ (∀ c ∈ st.handlers, ¬ rankLt c (minElement h hs))
    ∧ (∃ l1 l2, st.handlers = l1 ++ minElement h hs :: l2 ∧
        ∀ c ∈ l1, rankLt (minElement h hs) c)
    ∧ (∀ st2 evs, updateShell st = UpdateResult.ok st2 evs →
        st2.currentHandler = some (minElement h hs).name) := by
  refine ⟨?_, ?_, ?_, ?_⟩
  · rw [hst]
    exact minElement_mem h hs
  · rw [hst]
    exact minElement_not_lt h hs
  · rw [hst]
    exact minElement_first h hs
  · intro st2 evs hup
    unfold updateShell at hup
    rw [hst] at hup
    simp only at hup
    split at hup
    · rename_i hcur
      injection hup with h1 h2
      rw [← h1]
      exact hcur
    · injection hup with h1 h2
      rw [← h1]

theorem updateShell_selects_preferred_witness :
    stAB.handlers = hA :: [hB]
    ∧ (minElement hA [hB] ∈ stAB.handlers
      ∧ (∀ c ∈ stAB.handlers, ¬ rankLt c (minElement hA [hB]))
      ∧ (∃ l1 l2, stAB.handlers = l1 ++ minElement hA [hB] :: l2 ∧
          ∀ c ∈ l1, rankLt (minElement hA [hB]) c)
      ∧ (∀ st2 evs, updateShell stAB = UpdateResult.ok st2 evs →
          st2.currentHandler = some (minElement hA [hB]).name)) :=
  ⟨rfl, updateShell_selects_preferred stAB hA [hB] rfl⟩

/-- C3: Whenever the selector is evaluated with zero registered candidates,
`ShellManager::updateShell` reaches `qFatal` with its diagnostic message and
the process terminates. -/
theorem updateShell_fatal_on_empty (st : ShellManagerState)
    (h : st.handlers = []) :
    updateShell st =
      UpdateResult.fatal "No shell handlers installed, cannot continue!" := by
  unfold updateShell
  rw [h]

theorem updateShell_fatal_on_empty_witness :
    stEmptySM.handlers = []
    ∧ updateShell stEmptySM =
        UpdateResult.fatal "No shell handlers installed, cannot continue!" :=
  ⟨rfl, updateShell_fatal_on_empty stEmptySM rfl⟩

/-- C10: When no current handler is selected, the accessors are total:
`ShellManager::shell` returns the empty string and
`ShellManager::shellDirectory` returns the default directory. -/
theorem accessors_total_without_current (st : ShellManagerState)
    (h : st.currentHandler = none) :
    st.shell = "" ∧ st.shellDirectory = "." := by
  constructor
  · unfold ShellManagerState.shell
    rw [h]
  · unfold ShellManagerState.shellDirectory
    rw [h]
    rfl

theorem accessors_total_without_current_witness :
    stEmptySM.currentHandler = none
    ∧ stEmptySM.shell = "" ∧ stEmptySM.shellDirectory = "." :=
  ⟨rfl, accessors_total_without_current stEmptySM rfl⟩

/-- Removing the entry registered under key `n` leaves lookups for any other
key `m` unchanged. -/
theorem find?_removeFirstByName_ne (hs : List Handler) (m n : String)
    (hmn : m ≠ n) :
    (removeFirstByName hs n).find? (fun g => g.name == m) =
      hs.find? (fun g => g.name == m) := by
  induction hs with
  | nil => rfl
  | cons h t ih =>
    by_cases hn : h.name = n
    · have hpa : (h.name == m) = false := by
        rw [hn]
        exact beq_eq_false_iff_ne.mpr (Ne.symm hmn)
      simp only [removeFirstByName, if_pos hn, List.find?_cons, hpa]
    · simp only [removeFirstByName, if_neg hn, List.find?_cons]
      cases hpm : h.name == m with
      | true => rfl
      | false => exact ih

/-- Removing the entry registered under key `n` keeps every candidate whose
key differs from `n`. -/
theorem mem_removeFirstByName_of_ne (hs : List Handler) (n : String) :
    ∀ g ∈ hs, g.name ≠ n → g ∈ removeFirstByName hs n := by
  induction hs with
  | nil =>
    intro g hg
    exact absurd hg (List.not_mem_nil g)
  | cons h t ih =>
    intro g hg hgn
    by_cases hn : h.name = n
    · simp only [removeFirstByName, if_pos hn]
      rcases List.mem_cons.mp hg with h2 | h2
      · rw [h2] at hgn
        exact absurd hn hgn
      · exact h2
    · simp only [removeFirstByName, if_neg hn]
      rcases List.mem_cons.mp hg with h2 | h2
      · rw [h2]
        exact List.mem_cons_self _ _
      · exact List.mem_cons_of_mem _ (ih g h2 hgn)

/-- C9: `ShellManager::deregisterHandler` on a handler that is not the
current one removes only that candidate from the mapping: the
current-handler reference, every other candidate (loaded flags included) and
the current shell name are unchanged, and no notification is emitted. -/
theorem deregisterHandler_noncurrent (st : ShellManagerState) (n : String)
    (h : st.currentHandler ≠ some n) :
    deregisterHandler st n =
      UpdateResult.ok
        { handlers := removeFirstByName st.handlers n,
          currentHandler := st.currentHandler } []
    ∧ ({ handlers := removeFirstByName st.handlers n,
         currentHandler := st.currentHandler } : ShellManagerState).shell = st.shell
    ∧ (∀ g ∈ st.handlers, g.name ≠ n → g ∈ removeFirstByName st.handlers n) := by
  refine ⟨?_, ?_, ?_⟩
  · unfold deregisterHandler
    rw [if_neg h]
  · unfold ShellManagerState.shell
    cases hcur : st.currentHandler with
    | none => rfl
    | some m =>
      have hmn : m ≠ n := by
        intro he
        rw [hcur, he] at h
        exact h rfl
      simp only
      rw [find?_removeFirstByName_ne st.handlers m n hmn]
  · exact mem_removeFirstByName_of_ne st.handlers n

theorem deregisterHandler_noncurrent_witness :
    stAB.currentHandler ≠ some "a"
    ∧ (deregisterHandler stAB "a" =
        UpdateResult.ok
          { handlers := removeFirstByName stAB.handlers "a",
            currentHandler := stAB.currentHandler } []
      ∧ ({ handlers := removeFirstByName stAB.handlers "a",
           currentHandler := stAB.currentHandler } : ShellManagerState).shell = stAB.shell
      ∧ (∀ g ∈ stAB.handlers, g.name ≠ "a" →
          g ∈ removeFirstByName stAB.handlers "a")) :=
  ⟨by decide, deregisterHandler_noncurrent stAB "a" (by decide)⟩

/-- After a handler switch, a candidate is loaded exactly when it is the
newly selected one: the prior current handler was unloaded first and the
selected handler loaded afterwards, and candidates that were never loaded
stay unloaded. -/
theorem loaded_iff_after_switch (hsAll : List Handler) (cur : Option String)
    (n : String)
    (hinv : ∀ g ∈ hsAll, g.loaded = true → cur = some g.name) :
    ∀ g ∈ setLoaded (unloadCurrent hsAll cur) n true,
      (g.loaded = true ↔ g.name = n) := by
  intro g hg
  unfold setLoaded at hg
  obtain ⟨g0, hg0, rfl⟩ := List.mem_map.mp hg
  by_cases h0 : g0.name = n
  · rw [if_pos h0]
    simp [h0]
  · rw [if_neg h0]
    constructor
    · intro hl
      cases hcur : cur with
      | none =>
        rw [hcur] at hg0
        simp only [unloadCurrent] at hg0
        have := hinv g0 hg0 hl
        rw [hcur] at this
        exact absurd this (Option.noConfusion)
      | some c =>
        rw [hcur] at hg0
        simp only [unloadCurrent] at hg0
        obtain ⟨g1, hg1, rfl⟩ := List.mem_map.mp hg0
        by_cases h1 : g1.name = c
        · rw [if_pos h1] at hl
          exact absurd hl (by simp)
        · rw [if_neg h1] at hl
          have := hinv g1 hg1 hl
          rw [hcur] at this
          exact absurd (Option.some.inj this).symm h1
    · intro hn0
      exact absurd hn0 h0

/-- C4: On re-evaluation, `ShellManager::updateShell` is a no-op with no
notification when the best candidate already is the current handler;
otherwise it unloads the prior handler, loads the new one, installs it as
current and emits exactly one `shellChanged` notification carrying the new
handler's shell name — so at most one candidate is loaded afterwards. -/
theorem updateShell_switch (st : ShellManagerState) (h : Handler)
    (hs : List Handler) (hst : st.handlers = h :: hs)
    (hinv : ∀ g ∈ st.handlers, g.loaded = true →
      st.currentHandler = some g.name) :
    (st.currentHandler = some (minElement h hs).name →
        updateShell st = UpdateResult.ok st [])
    ∧ (st.currentHandler ≠ some (minElement h hs).name →
        ∃ st2, updateShell st = UpdateResult.ok st2
            [SMEvent.shellChanged (minElement h hs).shell]
          ∧ st2.currentHandler = some (minElement h hs).name
          ∧ (∀ g ∈ st2.handlers,
              (g.loaded = true ↔ g.name = (minElement h hs).name))
          ∧ (∀ g1 ∈ st2.handlers, ∀ g2 ∈ st2.handlers,
              g1.loaded = true → g2.loaded = true → g1.name = g2.name)) := by
  obtain ⟨L, cur⟩ := st
  dsimp only at hst hinv ⊢
  subst hst
  constructor
  · intro hcur
    unfold updateShell
    dsimp only
    rw [if_pos hcur]
  · intro hcur
    refine ⟨⟨setLoaded (unloadCurrent (h :: hs) cur) (minElement h hs).name true,
        some (minElement h hs).name⟩, ?_, rfl, ?_, ?_⟩
    · unfold updateShell
      dsimp only
      rw [if_neg hcur]
    · exact loaded_iff_after_switch (h :: hs) cur (minElement h hs).name hinv
    · intro g1 hg1 g2 hg2 hl1 hl2
      have e1 :=
        (loaded_iff_after_switch (h :: hs) cur (minElement h hs).name hinv
          g1 hg1).mp hl1
      have e2 :=
        (loaded_iff_after_switch (h :: hs) cur (minElement h hs).name hinv
          g2 hg2).mp hl2
      rw [e1, e2]

theorem updateShell_switch_witness :
    stAB.handlers = hA :: [hB]
    ∧ (∀ g ∈ stAB.handlers, g.loaded = true → stAB.currentHandler = some g.name)
    ∧ ((stAB.currentHandler = some (minElement hA [hB]).name →
          updateShell stAB = UpdateResult.ok stAB [])
      ∧ (stAB.currentHandler ≠ some (minElement hA [hB]).name →
          ∃ st2, updateShell stAB = UpdateResult.ok st2
              [SMEvent.shellChanged (minElement hA [hB]).shell]
            ∧ st2.currentHandler = some (minElement hA [hB]).name
            ∧ (∀ g ∈ st2.handlers,
                (g.loaded = true ↔ g.name = (minElement hA [hB]).name))
            ∧ (∀ g1 ∈ st2.handlers, ∀ g2 ∈ st2.handlers,
                g1.loaded = true → g2.loaded = true → g1.name = g2.name))) :=
  ⟨rfl, by decide, updateShell_switch stAB hA [hB] rfl (by decide)⟩

/-- C2 (counterexample): with zero workspaces, index 0 is not a valid
current index, yet `DesktopShell::removeWorkspace` does not report a typed
OutOfRange condition — it performs the unchecked `QList::takeAt` call,
whose precondition violation is the `fault` outcome (assertion failure or
undefined behavior), contradicting the claimed no-crash typed-error
behavior. -/
theorem removeWorkspace_oob_counterexample :
    removeWorkspace dsEmpty 0 = RemoveResult.fault := by
  decide

/-- C2 (amended): for every index that is not a valid current index,
`DesktopShell::removeWorkspace` performs an out-of-range `QList::takeAt`
access (no bounds check exists): no typed OutOfRange condition is reported,
no notification is emitted, and the call is a container precondition
violation. -/
theorem removeWorkspace_oob_fault (st : DesktopShellState) (num : Int)
    (h : ¬ (0 ≤ num ∧ num < (st.workspaces.length : Int))) :
    removeWorkspace st num = RemoveResult.fault := by
  unfold removeWorkspace
  rw [dif_neg h]

theorem removeWorkspace_oob_fault_witness :
    (¬ ((0 : Int) ≤ 5 ∧ (5 : Int) < (dsTwo.workspaces.length : Int)))
    ∧ removeWorkspace dsTwo 5 = RemoveResult.fault :=
  ⟨by decide, removeWorkspace_oob_fault dsTwo 5 (by decide)⟩

/-- C7: for every valid index, `DesktopShell::removeWorkspace` emits the
`workspaceRemoved` notification carrying that index strictly before the
workspace object is deleted, exactly once — the trace is the notification
followed by the release of the very workspace that was at that index, so an
observer handling the notification can still query it. -/
theorem removeWorkspace_notifies_before_release (st : DesktopShellState)
    (num : Int) (h0 : 0 ≤ num) (h1 : num < (st.workspaces.length : Int)) :
    ∃ hn : num.toNat < st.workspaces.length,
      removeWorkspace st num =
        RemoveResult.ok
          { st with workspaces := st.workspaces.eraseIdx num.toNat }
          [DSAction.workspaceRemoved num,
           DSAction.deleteWorkspace (st.workspaces.get ⟨num.toNat, hn⟩)] := by
  have hn : num.toNat < st.workspaces.length := by omega
  refine ⟨hn, ?_⟩
  unfold removeWorkspace
  rw [dif_pos ⟨h0, h1⟩]

theorem removeWorkspace_notifies_before_release_witness :
    (0 : Int) ≤ 1 ∧ (1 : Int) < (dsTwo.workspaces.length : Int)
    ∧ ∃ hn : (1 : Int).toNat < dsTwo.workspaces.length,
        removeWorkspace dsTwo 1 =
          RemoveResult.ok
            { dsTwo with workspaces := dsTwo.workspaces.eraseIdx (1 : Int).toNat }
            [DSAction.workspaceRemoved 1,
             DSAction.deleteWorkspace (dsTwo.workspaces.get ⟨(1 : Int).toNat, hn⟩)] :=
  ⟨by decide, by decide,
    removeWorkspace_notifies_before_release dsTwo 1 (by decide) (by decide)⟩

/-- C8: delivering the mapped event twice for the same surface is
idempotent: the second delivery changes neither the shell state nor the
tracked surface and emits nothing, and exactly one window-added
(`windowsChanged`) notification is emitted in total. -/
theorem deliverMapped_idempotent (st : DesktopShellState)
    (surf : TrackedSurface) (h : surf.mapped = false) :
    ((deliverMapped (deliverMapped st surf).1 (deliverMapped st surf).2.1).1
        = (deliverMapped st surf).1)
    ∧ ((deliverMapped (deliverMapped st surf).1 (deliverMapped st surf).2.1).2.1
        = (deliverMapped st surf).2.1)
    ∧ ((deliverMapped (deliverMapped st surf).1 (deliverMapped st surf).2.1).2.2
        = [])
    ∧ (((deliverMapped st surf).2.2
        ++ (deliverMapped (deliverMapped st surf).1
              (deliverMapped st surf).2.1).2.2).count
          DSAction.windowsChanged = 1) := by
  have h1 : deliverMapped st surf =
      ({ st with windows := st.windows ++ [surf.sid] },
       { surf with mapped := true },
       [DSAction.windowsChanged]) := by
    simp [deliverMapped, appendWindow, h]
  have h2 : deliverMapped { st with windows := st.windows ++ [surf.sid] }
      { surf with mapped := true } =
      ({ st with windows := st.windows ++ [surf.sid] },
       { surf with mapped := true },
       []) := by
    simp [deliverMapped]
  rw [h1]
  simp only [h2]
  refine ⟨trivial, trivial, trivial, ?_⟩
  rfl

theorem deliverMapped_idempotent_witness :
    surfEx.mapped = false
    ∧ (((deliverMapped (deliverMapped dsEmpty surfEx).1
            (deliverMapped dsEmpty surfEx).2.1).1
          = (deliverMapped dsEmpty surfEx).1)
      ∧ ((deliverMapped (deliverMapped dsEmpty surfEx).1
            (deliverMapped dsEmpty surfEx).2.1).2.1
          = (deliverMapped dsEmpty surfEx).2.1)
      ∧ ((deliverMapped (deliverMapped dsEmpty surfEx).1
            (deliverMapped dsEmpty surfEx).2.1).2.2
          = [])
      ∧ (((deliverMapped dsEmpty surfEx).2.2
          ++ (deliverMapped (deliverMapped dsEmpty surfEx).1
                (deliverMapped dsEmpty surfEx).2.1).2.2).count
            DSAction.windowsChanged = 1)) :=
  ⟨rfl, deliverMapped_idempotent dsEmpty surfEx rfl⟩

/-- C5: when the last-known parent of a window entering the Destroyed state
no longer resolves in the views map, the focus handoff of
`onSurfaceDestroyed` is a silent no-op — no focus call is made, no error
path exists, and destruction (buffer lock and chrome teardown) completes
normally. -/
theorem destroyed_vanished_parent_silent (st : TrackerState)
    (views : List (SurfaceId × Nat))
    (h : lookupView views st.parentWlSurface = none) :
    (onSurfaceDestroyed st views).focusTargets = []
    ∧ (onSurfaceDestroyed st views).bufferLocked = true
    ∧ (onSurfaceDestroyed st views).chromeDestroyed = true := by
  refine ⟨?_, rfl, rfl⟩
  show giveFocusToParent views st.parentWlSurface = []
  unfold giveFocusToParent
  rw [h]

theorem destroyed_vanished_parent_silent_witness :
    lookupView [] trackerOrphan.parentWlSurface = none
    ∧ ((onSurfaceDestroyed trackerOrphan []).focusTargets = []
      ∧ (onSurfaceDestroyed trackerOrphan []).bufferLocked = true
      ∧ (onSurfaceDestroyed trackerOrphan []).chromeDestroyed = true) :=
  ⟨rfl, destroyed_vanished_parent_silent trackerOrphan [] rfl⟩

/-- C6: for every sequence of window-type-changed and
parent-surface-changed events delivered in any order, the tracker stores
the latest value of each independently, and the Destroyed-state handling
(animation choice and focus handoff) uses exactly the last-known type and
last-known parent. -/
theorem tracker_latest_wins (st : TrackerState) (evs : List SSEvent)
    (views : List (SurfaceId × Nat)) :
    applyEvents st evs =
      { windowType := lastTypeD st.windowType evs,
        parentWlSurface := lastParentD st.parentWlSurface evs }
    ∧ onSurfaceDestroyed (applyEvents st evs) views =
      onSurfaceDestroyed
        { windowType := lastTypeD st.windowType evs,
          parentWlSurface := lastParentD st.parentWlSurface evs } views := by
  have h1 : ∀ st2 : TrackerState, applyEvents st2 evs =
      { windowType := lastTypeD st2.windowType evs,
        parentWlSurface := lastParentD st2.parentWlSurface evs } := by
    induction evs with
    | nil =>
      intro st2
      rfl
    | cons e rest ih =>
      intro st2
      have step : applyEvents st2 (e :: rest) =
          applyEvents (applyEvent st2 e) rest := rfl
      rw [step, ih]
      cases e <;> rfl
  exact ⟨h1 st, by rw [h1 st]⟩
